import Mathlib

/-!
Verification of the file-watcher lifecycle engine
(`src/file_watcher/scripts/file_watcher.py`).

The Python code is shallowly embedded: pure string manipulation is
translated to executable functions on `String` / `List Char`; the
filesystem, the advisory lock, and the GCS object store are abstracted
into explicit boolean/functional parameters describing the outcome of
each external call; Python exceptions become an explicit `Except`
result.  The Python regular-expression calls (on the two concrete
patterns used by `_replace_extensions` and `_filter_filename`) are
modelled by direct leftmost/greedy matchers with Python `re`
semantics (`.` matches anything but a newline, `$` also matches just
before a trailing newline, `\w` is modelled for ASCII input).
-/

set_option autoImplicit false

namespace FileWatcher

/-- Python exception kinds that the embedded code can raise. -/
inductive PyExc where
  | typeError
  | attributeError
  | osError
  | blockingError
  | recursionError
deriving DecidableEq

/-- The `FileManager` configuration fields used by the embedded methods.
`src_path` and `archive_path` are stored after the constructor applies
`os.path.join(p, "")` (i.e. with a trailing separator), exactly as the
Python `__init__` does; theorems take the stored values directly.
`file_type` is the optional fixed category override. -/
structure Config where
  src_path : String
  archive_path : String
  file_type : Option String
deriving DecidableEq

/-! ### Python string / path primitives -/

/-- The Python substring containment test `pat in s` on character lists. -/
def containsSub (pat : List Char) : List Char → Bool
  | [] => pat == []
  | c :: rest => pat.isPrefixOf (c :: rest) || containsSub pat rest

/-- Fuel-driven worker for `removeAll` (Python `s.replace(old, "")`):
scans left to right, removing each non-overlapping occurrence of `pat`. -/
def removeAllFuel (pat : List Char) : Nat → List Char → List Char
  | 0, cs => cs
  | _ + 1, [] => []
  | fuel + 1, c :: rest =>
    if pat ≠ [] ∧ pat.isPrefixOf (c :: rest) then
      removeAllFuel pat fuel ((c :: rest).drop pat.length)
    else
      c :: removeAllFuel pat fuel rest

/-- Python `s.replace(old, "")`: remove every occurrence of `pat`. -/
def removeAll (pat cs : List Char) : List Char := removeAllFuel pat cs.length cs

/-- Python `s.split("/")` on character lists. -/
def splitOnSlash : List Char → List (List Char)
  | [] => [[]]
  | c :: rest =>
    if c = '/' then [] :: splitOnSlash rest
    else
      match splitOnSlash rest with
      | [] => [[c]]
      | g :: gs => (c :: g) :: gs

/-- Python `"/".join(l)`. -/
def joinSlash : List String → String
  | [] => ""
  | [a] => a
  | a :: b :: t => a ++ "/" ++ joinSlash (b :: t)

/-- Python `os.path.basename` (posix): the part after the last `/`. -/
def basename (s : String) : String :=
  String.mk ((s.toList.reverse.takeWhile (fun c => c != '/')).reverse)

/-- Python `os.path.dirname` (posix): the part before the last `/`,
with trailing slashes stripped unless the head is all slashes. -/
def dirname (s : String) : String :=
  let head := (s.toList.reverse.dropWhile (fun c => c != '/')).reverse
  if head = [] then ""
  else if head.all (fun c => c == '/') then String.mk head
  else String.mk ((head.reverse.dropWhile (fun c => c == '/')).reverse)

/-- Python `os.path.join(a, b)` (posix, two arguments). -/
def pjoin (a b : String) : String :=
  if b.toList.take 1 = ['/'] then b
  else if a = "" ∨ a.toList.getLast? = some '/' then a ++ b
  else a ++ "/" ++ b

/-! ### `FileManager._extract` and the two derivation helpers -/

/-- The segment list `file_path.replace(self.src_path, "").split("/")`
computed at the top of `FileManager._extract`. -/
def extractSegs (src_path fp : String) : List String :=
  (splitOnSlash (removeAll src_path.toList fp.toList)).map String.mk

/-- `FileManager._extract(file_path, extr_f, gt_l)`: `None` is `none`;
Python truthiness of strings/lists is the emptiness test. -/
def extract (cfg : Config) (file_path : String) (extr_f : List String → String)
    (gt_l : Nat) : Option String :=
  if file_path = "" then none
  else
    let ps := extractSegs cfg.src_path file_path
    if ps ≠ [] ∧ ps.length > gt_l then
      let p := extr_f ps
      if p ≠ "" then some p else none
    else none

/-- `FileManager._extract_org_path`: the fixed `file_type` override wins
whenever the path is truthy; otherwise the first segment via `_extract`. -/
def extract_org_path (cfg : Config) (file_path : String) : Option String :=
  if file_path ≠ "" ∧ cfg.file_type.isSome then cfg.file_type
  else extract cfg file_path (fun s => s.headD "") 1

/-- `FileManager._extract_filepath_from_org`: join of the segments after
the first; if that is falsy, fall back to the join of all segments. -/
def extract_filepath_from_org (cfg : Config) (file_path : String) : Option String :=
  match extract cfg file_path (fun s => joinSlash s.tail) 0 with
  | some s => some s
  | none => extract cfg file_path (fun s => joinSlash s) 0

/-- `FileManager._build_tgt_path`.  When the organisation resolves but the
remainder is `None`, Python evaluates `org + "/" + None` and raises
`TypeError`; that is the `Except.error` branch. -/
def build_tgt_path (cfg : Config) (file_path : String) : Except PyExc (Option String) :=
  match extract_org_path cfg file_path with
  | none => Except.ok (extract_filepath_from_org cfg file_path)
  | some org =>
    match extract_filepath_from_org cfg file_path with
    | none => Except.error PyExc.typeError
    | some rest => Except.ok (some (org ++ "/" ++ rest))

/-! ### The two regular expressions of `_replace_extensions`

`gz_r = r"\..+\.gz"` and `other_r = r"\.\w+$"`, with Python `re`
semantics: a match is found at the leftmost possible start position;
`.+` is greedy (backtracking yields the largest possible end), matches
any character except `'\n'`, and `$` matches at the end of the string
or just before a trailing newline.  `re.findall` collects
non-overlapping matches left to right and `re.sub(p, "", s)` removes
all of them. -/

/-- The character class of `.` in Python regexes: anything but a newline. -/
def reDot (c : Char) : Bool := c != '\n'

/-- The character class of `\w` (modelled for ASCII input). -/
def isWordChar (c : Char) : Bool := c.isAlphanum || c == '_'

/-- Whether the literal `".gz"` occurs at position `j` of `cs`. -/
def dotGzAt (cs : List Char) (j : Nat) : Bool :=
  (cs.drop j).take 3 == ['.', 'g', 'z']

/-- For a `\..+\.gz` match starting at `i`: the greedy (largest) `j` at
which the closing `".gz"` can sit, i.e. `j ≥ i + 2`, `".gz"` at `j`,
and all characters consumed by `.+` (positions `i+1 .. j-1`) non-newline. -/
def gzGreedyEnd (cs : List Char) (i : Nat) : Option Nat :=
  (List.range cs.length).reverse.find? fun j =>
    decide (i + 2 ≤ j) && dotGzAt cs j && ((cs.drop (i + 1)).take (j - (i + 1))).all reDot

/-- Leftmost start position `≥ start` of a `\..+\.gz` match. -/
def gzMatchStartFrom (cs : List Char) (start : Nat) : Option Nat :=
  ((List.range cs.length).drop start).find? fun i =>
    ((cs.drop i).take 1 == ['.']) && (gzGreedyEnd cs i).isSome

/-- First `\..+\.gz` match at or after `start`, as a `[start, stop)` region. -/
def gzFirstMatchFrom (cs : List Char) (start : Nat) : Option (Nat × Nat) :=
  match gzMatchStartFrom cs start with
  | none => none
  | some i =>
    match gzGreedyEnd cs i with
    | none => none
    | some j => some (i, j + 3)

/-- All non-overlapping `\..+\.gz` matches from `start` on (`re.findall`
order); every match is at least 5 characters long, so fuel
`cs.length + 1` is always sufficient. -/
def gzMatchesFrom (cs : List Char) : Nat → Nat → List (Nat × Nat)
  | 0, _ => []
  | fuel + 1, start =>
    match gzFirstMatchFrom cs start with
    | none => []
    | some (i, e) => (i, e) :: gzMatchesFrom cs fuel e

/-- `re.findall(r"\..+\.gz", cs)` as match regions. -/
def gzMatches (cs : List Char) : List (Nat × Nat) := gzMatchesFrom cs (cs.length + 1) 0

/-- `re.sub` with an empty replacement: drop every character lying in one
of the match regions. -/
def removeRegions (cs : List Char) (rs : List (Nat × Nat)) : List Char :=
  (List.range cs.length).filterMap fun k =>
    if rs.any (fun r => decide (r.1 ≤ k) && decide (k < r.2)) then none
    else some (cs.getD k ' ')

/-- The region in which `$`-anchored patterns must end: the string without
a single trailing newline, if any. -/
def stripTrailingNl (cs : List Char) : List Char :=
  if cs.getLast? = some '\n' then cs.dropLast else cs

/-- Leftmost start position of a `\.\w+$` match: a dot followed by one or
more word characters running to the `$` anchor. -/
def otherMatch (cs : List Char) : Option Nat :=
  (List.range (stripTrailingNl cs).length).find? fun i =>
    (((stripTrailingNl cs).drop i).take 1 == ['.'])
      && decide (i + 1 < (stripTrailingNl cs).length)
      && (((stripTrailingNl cs).drop (i + 1)).all isWordChar)

/-- `FileManager._replace_extensions`: try `gz_r`, then a plain
`endswith(".gz")`, then `other_r`; `None` when nothing matches. -/
def replace_extensions (file_name : String) : Option (String × String) :=
  if file_name = "" then none
  else
    match gzMatches file_name.toList with
    | m :: _ =>
      some (String.mk (removeRegions file_name.toList (gzMatches file_name.toList)),
            String.mk ((file_name.toList.drop m.1).take (m.2 - m.1)))
    | [] =>
      if ['.', 'g', 'z'].isSuffixOf file_name.toList then
        some (String.mk (file_name.toList.take (file_name.toList.length - 3)), ".gz")
      else
        match otherMatch file_name.toList with
        | none => none
        | some i =>
          some (String.mk ((stripTrailingNl file_name.toList).take i
                  ++ (if file_name.toList.getLast? = some '\n' then ['\n'] else [])),
                String.mk ((stripTrailingNl file_name.toList).drop i))

/-! ### `_add_uuid_to_filename`, `upload_to_gcs`, `archive_file` -/

/-- `FileManager._add_uuid_to_filename` with the fresh `uuid4().hex`
passed in as `hex`.  Faithful to the variable mix-up in the source: it takes
`os.path.dirname` of the *basename* (always `""`) and feeds that to
`_replace_extensions`; when `_replace_extensions` returns `None`,
unpacking `name_wo_ext, ext = None` raises `TypeError`. -/
def add_uuid_to_filename (hex : String) (file_path : String) : Except PyExc (Option String) :=
  if file_path = "" then Except.ok none
  else
    let file_name := basename file_path
    let new_file_path := dirname file_name
    match replace_extensions new_file_path with
    | none => Except.error PyExc.typeError
    | some (name_wo_ext, exten) =>
      Except.ok (some (new_file_path ++ "/" ++ name_wo_ext ++ "_" ++ hex ++ "-" ++ exten))

/-- `FileManager.upload_to_gcs`.  `gexists` is the existence test of the object store (`_gcs_file_exists`), `uploadOk` the success of
`blob.upload_from_file` (the `try` turns its failure into `False`, never
an exception), `hex` the stream of fresh uuid hexes indexed by remaining
fuel, `tgtOpt` the optional `tgt_path` argument (Python default `None`;
a falsy value is recomputed via `_build_tgt_path`).  The returned list
records every key under which an upload was actually attempted.
The Python recursion is modelled with explicit fuel standing for the
recursion limit of the interpreter. -/
def upload_to_gcs (cfg : Config) (gexists uploadOk : String → Bool) (hex : Nat → String) :
    Nat → String → Option String → Except PyExc Bool × List String
  | 0, _, _ => (Except.error PyExc.recursionError, [])
  | fuel + 1, current_path, tgtOpt =>
    let tgtE : Except PyExc (Option String) :=
      match tgtOpt with
      | some t => if t = "" then build_tgt_path cfg current_path else Except.ok (some t)
      | none => build_tgt_path cfg current_path
    match tgtE with
    | Except.error e => (Except.error e, [])
    | Except.ok none => (Except.error PyExc.typeError, [])
    | Except.ok (some tgt) =>
      if gexists tgt then
        match add_uuid_to_filename (hex fuel) tgt with
        | Except.error e => (Except.error e, [])
        | Except.ok t' => upload_to_gcs cfg gexists uploadOk hex fuel current_path t'
      else
        (Except.ok (uploadOk tgt), [tgt])

/-- Outcomes of the two filesystem calls made by `archive_file`:
`os.makedirs` (outside the `try`) and `shutil.move` (inside it). -/
structure ArchiveFs where
  makedirs_ok : Bool
  move_ok : Bool
deriving DecidableEq

/-- `FileManager.archive_file`.  The derivation and `os.makedirs` run
outside the `try`, so their failures propagate as exceptions; only a
`shutil.move` failure is caught (logged, and `None` returned). -/
def archive_file (cfg : Config) (fs : ArchiveFs) (file_path : String) :
    Except PyExc (Option String) :=
  match build_tgt_path cfg file_path with
  | Except.error e => Except.error e
  | Except.ok none => Except.error PyExc.typeError
  | Except.ok (some archive_suffix) =>
    let tgt_dir := pjoin cfg.archive_path (dirname archive_suffix)
    if fs.makedirs_ok = false then Except.error PyExc.osError
    else
      let tgt := pjoin tgt_dir (basename file_path)
      if fs.move_ok then Except.ok (some tgt) else Except.ok none

/-! ### `_file_lock` -/

/-- Outcome of the external calls made during one `_file_lock` attempt:
whether `open(file_path, "rb+")` succeeds, whether the non-blocking
`flock` acquires the lock (otherwise it raises `BlockingIOError`), and
whether the supplied action raises. -/
structure LockScenario where
  openOk : Bool
  lockAvailable : Bool
  funcExc : Option PyExc
deriving DecidableEq

/-- What a `_file_lock` call leaves behind: the value it returns (if it
returns), the exception it raises (if it raises), whether the opened
descriptor is still open on exit, and whether the advisory lock is
still held on exit. -/
structure LockResult where
  returnedValue : Option (Option PyExc)
  raisedExc : Option PyExc
  fdLeakedOpen : Bool
  lockHeldOnExit : Bool
deriving DecidableEq

/-- `FileManager._file_lock`.  If `open` fails, the exception is caught
and returned as a value, no descriptor exists.  Once the file is open,
the `try` body runs (`flock`, then `func`); every exception from it is
caught and stored in `err` — but the `finally` block executes
`fcntl.flock(fd.fcntl.LOCK_UN)`, and a Python file object has no
attribute `fcntl`, so the attribute lookup `fd.fcntl` raises
`AttributeError` before any unlock happens; `fd.close()` on the next
line is never reached, and the `AttributeError` replaces `return err`.
Hence on every successfully-opened path the call raises, the descriptor
stays open, and an acquired lock stays held (it is only dropped later
by the interpreter when the leaked descriptor is garbage-collected). -/
def file_lock (s : LockScenario) : LockResult :=
  if s.openOk = false then
    { returnedValue := some (some PyExc.osError), raisedExc := none,
      fdLeakedOpen := false, lockHeldOnExit := false }
  else
    { returnedValue := none, raisedExc := some PyExc.attributeError,
      fdLeakedOpen := true, lockHeldOnExit := s.lockAvailable }

/-! ### `_handle_event` -/

/-- The module-level `input_path` predicate: `"file_type" in path.lower()`. -/
def input_path (source_path : String) : Bool :=
  containsSub "file_type".toList (source_path.toList.map Char.toLower)

/-- Observable effects of one `_handle_event` run on a locked file. -/
structure EventOutcome where
  uploadInvoked : Bool
  uploaded : Bool
  archiveInvoked : Bool
  sourceFileMoved : Bool
  raisedExc : Option PyExc
deriving DecidableEq

/-- `FileManager._handle_event` for an open descriptor on `event_path`.
`statOk` and `size` describe `os.stat(event_path)`; `uploadResult` is
what the `upload_to_gcs` call does (returns a `Bool` or raises);
`archiveMoveOk` is whether the `shutil.move` inside `archive_file`
succeeds, which is the only operation that removes the source file. -/
def handle_event_inner (cfg : Config) (statOk : Bool) (size : Nat)
    (uploadResult : Except PyExc Bool) (archiveMoveOk : Bool)
    (event_path : String) : EventOutcome :=
  if statOk = false then
    { uploadInvoked := false, uploaded := false, archiveInvoked := false,
      sourceFileMoved := false, raisedExc := none }
  else if size = 0 then
    { uploadInvoked := false, uploaded := false, archiveInvoked := false,
      sourceFileMoved := false, raisedExc := none }
  else if containsSub cfg.archive_path.toList event_path.toList then
    { uploadInvoked := false, uploaded := false, archiveInvoked := false,
      sourceFileMoved := false, raisedExc := none }
  else if input_path event_path = false then
    { uploadInvoked := false, uploaded := false, archiveInvoked := false,
      sourceFileMoved := false, raisedExc := none }
  else
    match uploadResult with
    | Except.error e =>
      { uploadInvoked := true, uploaded := false, archiveInvoked := false,
        sourceFileMoved := false, raisedExc := some e }
    | Except.ok false =>
      { uploadInvoked := true, uploaded := false, archiveInvoked := false,
        sourceFileMoved := false, raisedExc := none }
    | Except.ok true =>
      { uploadInvoked := true, uploaded := true, archiveInvoked := true,
        sourceFileMoved := archiveMoveOk, raisedExc := none }

/-! ### Scan filter and loop -/

/-- `re.match(r".+\..+$", s)` as a boolean: the pattern is anchored at the
start, `$` matches at the end or before one trailing newline, and `.`
excludes newlines — so it holds exactly when the body (the string
without one trailing newline) is newline-free and has a dot at some
position other than the first and last. -/
def matchesDotted (s : String) : Bool :=
  let body := stripTrailingNl s.toList
  body.all reDot && (List.range body.length).any fun i =>
    decide (0 < i) && decide (i + 1 < body.length) && (body.getD i ' ' == '.')

/-- `FileManager._filter_filename`: truthy path, the dotted-name regex,
the archive path not a substring, and — as literally written in the
source — `file_path.startswith(".")` on the whole path. -/
def filter_filename (cfg : Config) (file_path : String) : Bool :=
  (file_path != "") && matchesDotted file_path
    && !(containsSub cfg.archive_path.toList file_path.toList)
    && ['.'].isPrefixOf file_path.toList

/-- `FileManager._process_all_files` restricted to its selection logic:
given the paths enumerated by `os.walk`, the files on which
`handle_event` is invoked are exactly those passing `_filter_filename`. -/
def process_all_files (cfg : Config) (walked : List String) : List String :=
  walked.filter (filter_filename cfg)

/-- What one tick of the `start` loop does before control returns to the
`while` head: either the `for` over `_process_all_files` and the
per-file logging complete normally, or an exception escapes the `try`
body (`isInterrupt` marks `InterruptedError`). -/
inductive TickResult where
  | ok
  | exc (isInterrupt : Bool)
deriving DecidableEq

/-- The externally observable events of the `start` loop. -/
inductive LoopEvent where
  | slept
  | loggedTickError
  | stopped
deriving DecidableEq

/-- `FileManager.start` over a finite prefix of tick outcomes: a normal
tick is followed by `time.sleep(self.sleep_timer_s)`; an
`InterruptedError` breaks out of the loop; any other escaping exception
is logged by `except Exception` and the loop continues immediately —
the sleep sits inside the `try`, before the handlers, so it is skipped. -/
def startTrace : List TickResult → List LoopEvent
  | [] => []
  | TickResult.ok :: rest => LoopEvent.slept :: startTrace rest
  | TickResult.exc true :: _ => [LoopEvent.stopped]
  | TickResult.exc false :: rest => LoopEvent.loggedTickError :: startTrace rest

/-! ### Helper lemmas -/

theorem mem_takeWhile_pred {p : Char → Bool} :
    ∀ (l : List Char) (x : Char), x ∈ l.takeWhile p → p x = true := by
  intro l
  induction l with
  | nil => intro x hx; simp [List.takeWhile] at hx
  | cons c rest ih =>
    intro x hx
    by_cases hc : p c
    · rw [List.takeWhile_cons_of_pos hc] at hx
      rcases List.mem_cons.mp hx with h | h
      · rw [h]; exact hc
      · exact ih x h
    · rw [List.takeWhile_cons_of_neg hc] at hx
      simp at hx

/-- A basename never contains a separator, so its dirname is empty. -/
theorem dirname_basename (s : String) : dirname (basename s) = "" := by
  have h : ((basename s).toList.reverse.dropWhile (fun c => c != '/')) = [] := by
    show ((((s.toList.reverse.takeWhile (fun c => c != '/')).reverse).reverse).dropWhile
        (fun c => c != '/')) = []
    rw [List.reverse_reverse, List.dropWhile_eq_nil_iff]
    intro x hx
    exact mem_takeWhile_pred _ x hx
  unfold dirname
  rw [h]
  rfl

/-- Shared core of C3/C4: on every non-empty input,
`_add_uuid_to_filename` raises `TypeError`. -/
theorem add_uuid_to_filename_raises (hex fp : String) (h : fp ≠ "") :
    add_uuid_to_filename hex fp = Except.error PyExc.typeError := by
  simp only [add_uuid_to_filename, if_neg h, dirname_basename]
  rfl

theorem joinSlash_ne_empty (l : List String) (hl : l ≠ [])
    (hne : ∀ x ∈ l, x ≠ "") : joinSlash l ≠ "" := by
  match l with
  | [] => exact absurd rfl hl
  | [a] => exact hne a (List.mem_singleton.mpr rfl)
  | a :: b :: t =>
    intro hcontra
    have hlen := congrArg String.length hcontra
    simp only [joinSlash, String.length_append] at hlen
    have h1 : ("/" : String).length = 1 := rfl
    have h0 : ("" : String).length = 0 := rfl
    rw [h1, h0] at hlen
    omega

theorem take_one_drop (cs : List Char) (i : Nat) (h : i < cs.length) :
    (cs.drop i).take 1 = [cs.getD i ' '] := by
  induction cs generalizing i with
  | nil => simp at h
  | cons c rest ih =>
    match i with
    | 0 => rfl
    | i + 1 =>
      simp only [List.drop_succ_cons, List.getD_cons_succ]
      exact ih i (by simpa using h)

theorem find?_append_cons {l1 l2 : List Nat} {x : Nat} {p : Nat → Bool}
    (h1 : ∀ y ∈ l1, ¬(p y = true)) (h2 : p x = true) :
    (l1 ++ x :: l2).find? p = some x := by
  induction l1 with
  | nil => simpa using List.find?_cons_of_pos l2 h2
  | cons a t ih =>
    have ha : ¬ p a := h1 a (List.mem_cons_self a t)
    simp only [List.cons_append, List.find?_cons_of_neg _ ha]
    exact ih fun y hy => h1 y (List.mem_cons_of_mem a hy)

theorem range_reverse_succ (n : Nat) :
    (List.range (n + 1)).reverse = n :: (List.range n).reverse := by
  rw [List.range_succ, List.reverse_append]
  rfl

/-! ### C1: the lock guard -/

/-- C1: the claim states that a `_file_lock` call that successfully opens
the file releases the lock, closes the descriptor, and returns the
captured outcome as a value on every exit path.  The code does the
opposite on every such path: the `finally` block evaluates `fd.fcntl`,
which raises `AttributeError`, so the call raises instead of returning,
the descriptor is never closed, and an acquired lock is still held when
the exception propagates.  This holds regardless of whether the lock was
available or the action raised. -/
theorem claim_C1_file_lock (s : LockScenario) (h : s.openOk = true) :
    (file_lock s).raisedExc = some PyExc.attributeError ∧
    (file_lock s).returnedValue = none ∧
    (file_lock s).fdLeakedOpen = true ∧
    (file_lock s).lockHeldOnExit = s.lockAvailable := by
  simp [file_lock, h]

/-- Witness for C1 at a concrete scenario (open succeeds, lock acquired,
action completes normally). -/
theorem claim_C1_file_lock_witness :
    (file_lock ⟨true, true, none⟩).raisedExc = some PyExc.attributeError ∧
    (file_lock ⟨true, true, none⟩).returnedValue = none ∧
    (file_lock ⟨true, true, none⟩).fdLeakedOpen = true ∧
    (file_lock ⟨true, true, none⟩).lockHeldOnExit = true :=
  claim_C1_file_lock ⟨true, true, none⟩ rfl

/-! ### C9: the main loop -/

/-- C9: a tick from which a non-interrupt exception escapes contributes
exactly one logged-error event and no sleep, and the loop continues
immediately with the next tick, so consecutive failing ticks run
back-to-back; a sleep event can only sit at a position whose tick
completed normally; an interrupt ends the loop. -/
theorem claim_C9_start_loop :
    (∀ rest, startTrace (TickResult.exc false :: rest)
        = LoopEvent.loggedTickError :: startTrace rest) ∧
    (∀ rest, startTrace (TickResult.exc false :: TickResult.exc false :: rest)
        = LoopEvent.loggedTickError :: LoopEvent.loggedTickError :: startTrace rest) ∧
    (∀ rest, startTrace (TickResult.ok :: rest) = LoopEvent.slept :: startTrace rest) ∧
    (∀ rest, startTrace (TickResult.exc true :: rest) = [LoopEvent.stopped]) ∧
    (∀ (ticks : List TickResult) (n : Nat),
      (startTrace ticks)[n]? = some LoopEvent.slept → ticks[n]? = some TickResult.ok) := by
  refine ⟨fun _ => rfl, fun _ => rfl, fun _ => rfl, fun _ => rfl, ?_⟩
  intro ticks
  induction ticks with
  | nil => intro n h; simp [startTrace] at h
  | cons t rest ih =>
    intro n h
    cases t with
    | ok =>
      cases n with
      | zero => simp
      | succ n =>
        simp only [startTrace, List.getElem?_cons_succ] at h ⊢
        exact ih n h
    | exc b =>
      cases b with
      | true =>
        cases n with
        | zero => simp [startTrace] at h
        | succ n => simp [startTrace] at h
      | false =>
        cases n with
        | zero => simp [startTrace] at h
        | succ n =>
          simp only [startTrace, List.getElem?_cons_succ] at h ⊢
          exact ih n h

/-- Witness for C9 applied to the one-tick trace `[ok]` at position 0. -/
theorem claim_C9_start_loop_witness : ([TickResult.ok])[0]? = some TickResult.ok :=
  claim_C9_start_loop.2.2.2.2 [TickResult.ok] 0 (by decide)

/-! ### C4: `_add_uuid_to_filename` -/

/-- C4: the claim states that for a key with a recognizable extension,
`_add_uuid_to_filename` returns the directory joined with
`stem_<hex>-extension`.  The code instead raises `TypeError` on every
non-empty input: it takes `os.path.dirname` of the basename (which is
always `""`), feeds that empty string to `_replace_extensions` (which
returns `None` for falsy input), and the tuple unpacking of `None`
raises. -/
theorem claim_C4_add_uuid_raises (hex fp : String) (h : fp ≠ "") :
    add_uuid_to_filename hex fp = Except.error PyExc.typeError :=
  add_uuid_to_filename_raises hex fp h

/-- Witness for C4 on a key that has a directory and a `.csv` extension. -/
theorem claim_C4_add_uuid_raises_witness :
    add_uuid_to_filename "0f8fad5bdd1c" "org/sub/report.csv" = Except.error PyExc.typeError :=
  claim_C4_add_uuid_raises "0f8fad5bdd1c" "org/sub/report.csv" (by decide)

/-! ### C3: `upload_to_gcs` collision handling -/

/-- C3: the claim states that when the store reports the initial key as
existing (and every regenerated key as free), `upload_to_gcs` uploads
under a freshly regenerated key and returns `True`.  In fact, whenever
the existence check on a non-empty target key succeeds, the call to
`_add_uuid_to_filename` raises `TypeError` (see C4) before any upload:
the function raises, performs no upload at all — under the initial key
or any other — and never returns.  (Only the first half of the claim,
"never uploads under the initial key", survives.) -/
theorem claim_C3_upload_collision_raises (cfg : Config)
    (gexists uploadOk : String → Bool) (hex : Nat → String)
    (fuel : Nat) (current key : String)
    (hex_ : gexists key = true) (hkey : key ≠ "") :
    upload_to_gcs cfg gexists uploadOk hex (fuel + 1) current (some key)
      = (Except.error PyExc.typeError, []) := by
  simp [upload_to_gcs, if_neg hkey, hex_, add_uuid_to_filename_raises (hex fuel) key hkey]

/-- Witness for C3: a store in which exactly the initial key
`"org/report.csv"` exists and every upload would succeed. -/
theorem claim_C3_upload_collision_raises_witness :
    (fun k => k == "org/report.csv") "org/report.csv" = true ∧
    upload_to_gcs ⟨"/data/", "/data/archive/", none⟩ (fun k => k == "org/report.csv")
        (fun _ => true) (fun _ => "0f8fad5bdd1c") (4 + 1) "/data/org/report.csv"
        (some "org/report.csv")
      = (Except.error PyExc.typeError, []) :=
  ⟨rfl, claim_C3_upload_collision_raises ⟨"/data/", "/data/archive/", none⟩
    (fun k => k == "org/report.csv") (fun _ => true) (fun _ => "0f8fad5bdd1c")
    4 "/data/org/report.csv" "org/report.csv" rfl (by decide)⟩

/-! ### C5: the scan filter -/

/-- C5: the claim states that a file is kept exactly when its name
contains a dot, it is not under the archive root, and its name does
not start with a dot.  The code instead demands that the whole path
*does* start with a dot (`file_path.startswith(".")`), so an ordinary
candidate such as `/data/org/file_type/report.csv` (dotted name, not
under the archive, name not dot-prefixed) is rejected and never handed
to `handle_event`, while only dot-prefixed paths pass the filter. -/
theorem claim_C5_filter_inverted :
    filter_filename ⟨"/data/", "/data/archive/", none⟩ "/data/org/file_type/report.csv" = false ∧
    process_all_files ⟨"/data/", "/data/archive/", none⟩ ["/data/org/file_type/report.csv"] = [] ∧
    filter_filename ⟨"/data/", "/data/archive/", none⟩ "./org/file_type/report.csv" = true := by
  refine ⟨by decide, ?_, by decide⟩
  decide

/-! ### C2: upload-then-archive sequencing -/

/-- C2: a locked, validated candidate is archived exactly when its upload
returned `True`; on upload failure (or an upload exception) the archive
step is not invoked and the source file is not moved; and — with no
validation assumptions at all — the source file can only have been
moved after an upload that returned `True`. -/
theorem claim_C2_archive_iff_uploaded (cfg : Config) (statOk : Bool) (size : Nat)
    (upl : Except PyExc Bool) (archiveMoveOk : Bool) (path : String) :
    ((handle_event_inner cfg statOk size upl archiveMoveOk path).archiveInvoked = true →
      upl = Except.ok true) ∧
    ((handle_event_inner cfg statOk size upl archiveMoveOk path).sourceFileMoved = true →
      upl = Except.ok true) ∧
    (statOk = true → size ≠ 0 →
      containsSub cfg.archive_path.toList path.toList = false →
      input_path path = true →
      (((handle_event_inner cfg statOk size upl archiveMoveOk path).archiveInvoked = true ↔
          upl = Except.ok true) ∧
        (upl = Except.ok false →
          (handle_event_inner cfg statOk size upl archiveMoveOk path).archiveInvoked = false ∧
          (handle_event_inner cfg statOk size upl archiveMoveOk path).sourceFileMoved = false))) := by
  unfold handle_event_inner
  refine ⟨?_, ?_, ?_⟩
  · split
    · simp
    · split
      · simp
      · split
        · simp
        · split
          · simp
          · match upl with
            | Except.error e => simp
            | Except.ok true => simp
            | Except.ok false => simp
  · split
    · simp
    · split
      · simp
      · split
        · simp
        · split
          · simp
          · match upl with
            | Except.error e => simp
            | Except.ok true => simp
            | Except.ok false => simp
  · intro h1 h2 h3 h4
    have h3' : containsSub cfg.archive_path.data path.data = false := h3
    rw [if_neg (by simp [h1]), if_neg h2, if_neg (by simp [h3']), if_neg (by simp [h4])]
    match upl with
    | Except.error e => simp
    | Except.ok true => simp
    | Except.ok false => simp

/-- Witness for C2: a validated path whose upload returns `False`; the
archive step is not invoked and the file is not moved. -/
theorem claim_C2_archive_iff_uploaded_witness :
    ((handle_event_inner ⟨"/data/", "/data/archive/", none⟩ true 10 (Except.ok false) true
        "/data/org/file_type/report.csv").archiveInvoked = false ∧
     (handle_event_inner ⟨"/data/", "/data/archive/", none⟩ true 10 (Except.ok false) true
        "/data/org/file_type/report.csv").sourceFileMoved = false) :=
  (claim_C2_archive_iff_uploaded ⟨"/data/", "/data/archive/", none⟩ true 10
    (Except.ok false) true "/data/org/file_type/report.csv").2.2
    rfl (by decide) (by decide) (by decide) |>.2 rfl

/-! ### C7: `archive_file` -/

/-- C7 counterexample: the claim states that on *any* failure during
archiving the function logs and returns `None` without raising.  The
directory-creation step `os.makedirs` sits outside the `try`, so its
failure propagates as an exception instead of yielding `None`. -/
theorem claim_C7_counterexample :
    archive_file ⟨"/data/", "/data/archive/", none⟩ ⟨false, true⟩ "/data/org/sub/report.csv"
      = Except.error PyExc.osError := rfl

/-- C7 as amended: when the destination key derives successfully and the
directory creation succeeds, a successful move returns the archive path
joined from the archive root, the directory portion of the derived key,
and the original base filename of the source path; a move failure is
caught and reported as `None` (no exception). -/
theorem claim_C7_archive_file (cfg : Config) (fs : ArchiveFs) (fp key : String)
    (hkey : build_tgt_path cfg fp = Except.ok (some key))
    (hmk : fs.makedirs_ok = true) :
    (fs.move_ok = true →
      archive_file cfg fs fp
        = Except.ok (some (pjoin (pjoin cfg.archive_path (dirname key)) (basename fp)))) ∧
    (fs.move_ok = false → archive_file cfg fs fp = Except.ok none) := by
  unfold archive_file
  rw [hkey, hmk]
  constructor
  · intro hmv; rw [hmv]; rfl
  · intro hmv; rw [hmv]; rfl

/-- Witness for C7 (amended) at a concrete configuration, exercising both
the successful move and the caught move failure. -/
theorem claim_C7_archive_file_witness :
    archive_file ⟨"/data/", "/data/archive/", none⟩ ⟨true, true⟩ "/data/org/sub/report.csv"
      = Except.ok (some "/data/archive/org/sub/report.csv") ∧
    archive_file ⟨"/data/", "/data/archive/", none⟩ ⟨true, false⟩ "/data/org/sub/report.csv"
      = Except.ok none := by
  constructor
  · exact ((claim_C7_archive_file ⟨"/data/", "/data/archive/", none⟩ ⟨true, true⟩
      "/data/org/sub/report.csv" "org/sub/report.csv" rfl rfl).1 rfl).trans (by rfl)
  · exact (claim_C7_archive_file ⟨"/data/", "/data/archive/", none⟩ ⟨true, false⟩
      "/data/org/sub/report.csv" "org/sub/report.csv" rfl rfl).2 rfl

/-! ### C6: category and remainder derivation -/

theorem extract_eval (cfg : Config) (fp : String) (f : List String → String)
    (g : Nat) (segs : List String) (hfp : fp ≠ "")
    (hsegs : extractSegs cfg.src_path fp = segs) :
    extract cfg fp f g
      = if segs ≠ [] ∧ segs.length > g then
          (if f segs ≠ "" then some (f segs) else none)
        else none := by
  unfold extract
  rw [if_neg hfp, hsegs]

/-- C6: with no fixed category override, a relative path (the source
path already stripped by `replace`) splitting into two or more
non-empty segments yields the first segment as category and the
remaining segments rejoined as remainder; a single-segment relative
path yields no category and that very segment as remainder. -/
theorem claim_C6_category_and_remainder (cfg : Config) (fp : String) (segs : List String)
    (hft : cfg.file_type = none) (hfp : fp ≠ "")
    (hsegs : extractSegs cfg.src_path fp = segs)
    (hne : ∀ s_ ∈ segs, s_ ≠ "") :
    (∀ a t, segs = a :: t → t ≠ [] →
      extract_org_path cfg fp = some a ∧
      extract_filepath_from_org cfg fp = some (joinSlash t)) ∧
    (∀ a, segs = [a] →
      extract_org_path cfg fp = none ∧
      extract_filepath_from_org cfg fp = some a) := by
  constructor
  · intro a t hseq hte
    subst hseq
    constructor
    · have h1 : extract cfg fp (fun s => s.headD "") 1 = some a := by
        rw [extract_eval cfg fp _ 1 (a :: t) hfp hsegs]
        have hlen : (a :: t).length > 1 := by
          have hp := List.length_pos.mpr hte
          simp only [List.length_cons]
          omega
        rw [if_pos ⟨List.cons_ne_nil a t, hlen⟩]
        simp only [List.headD_cons]
        rw [if_pos (hne a (List.mem_cons_self a t))]
      unfold extract_org_path
      rw [if_neg (by simp [hft])]
      exact h1
    · have h2 : extract cfg fp (fun s => joinSlash s.tail) 0 = some (joinSlash t) := by
        rw [extract_eval cfg fp _ 0 (a :: t) hfp hsegs]
        rw [if_pos ⟨List.cons_ne_nil a t, by simp⟩]
        simp only [List.tail_cons]
        rw [if_pos (joinSlash_ne_empty t hte (fun x hx => hne x (List.mem_cons_of_mem a hx)))]
      unfold extract_filepath_from_org
      rw [h2]
  · intro a hseq
    subst hseq
    constructor
    · have h1 : extract cfg fp (fun s => s.headD "") 1 = none := by
        rw [extract_eval cfg fp _ 1 [a] hfp hsegs]
        rw [if_neg (by simp)]
      unfold extract_org_path
      rw [if_neg (by simp [hft])]
      exact h1
    · have h2 : extract cfg fp (fun s => joinSlash s.tail) 0 = none := by
        rw [extract_eval cfg fp _ 0 [a] hfp hsegs]
        rw [if_pos ⟨List.cons_ne_nil a [], by simp⟩]
        simp [joinSlash]
      have h3 : extract cfg fp (fun s => joinSlash s) 0 = some a := by
        rw [extract_eval cfg fp _ 0 [a] hfp hsegs]
        rw [if_pos ⟨List.cons_ne_nil a [], by simp⟩]
        simp only [joinSlash]
        rw [if_pos (hne a (List.mem_singleton.mpr rfl))]
      unfold extract_filepath_from_org
      rw [h2, h3]

/-- Witness for C6 on `/data/org/sub/report.csv` (three segments) and
`/data/report.csv` (one segment) under source root `/data/`. -/
theorem claim_C6_category_and_remainder_witness :
    extract_org_path ⟨"/data/", "/data/archive/", none⟩ "/data/org/sub/report.csv" = some "org" ∧
    extract_filepath_from_org ⟨"/data/", "/data/archive/", none⟩ "/data/org/sub/report.csv"
      = some "sub/report.csv" ∧
    extract_org_path ⟨"/data/", "/data/archive/", none⟩ "/data/report.csv" = none ∧
    extract_filepath_from_org ⟨"/data/", "/data/archive/", none⟩ "/data/report.csv"
      = some "report.csv" := by
  have hmulti := (claim_C6_category_and_remainder ⟨"/data/", "/data/archive/", none⟩
    "/data/org/sub/report.csv" ["org", "sub", "report.csv"] rfl (by decide) (by decide)
    (by decide)).1 "org" ["sub", "report.csv"] rfl (by decide)
  have hsingle := (claim_C6_category_and_remainder ⟨"/data/", "/data/archive/", none⟩
    "/data/report.csv" ["report.csv"] rfl (by decide) (by decide) (by decide)).2
    "report.csv" rfl
  exact ⟨hmulti.1, hmulti.2.trans (by decide), hsingle.1, hsingle.2⟩

/-! ### C8: `_replace_extensions` -/

theorem gzMatchStartFrom_eq_none (cs : List Char)
    (hgz : ∀ i < cs.length, ∀ j < cs.length,
      ¬(cs.getD i ' ' = '.' ∧ i + 2 ≤ j ∧ dotGzAt cs j = true)) :
    gzMatchStartFrom cs 0 = none := by
  unfold gzMatchStartFrom
  rw [List.drop_zero, List.find?_eq_none]
  intro i hi hpred
  have hilen : i < cs.length := List.mem_range.mp hi
  rw [Bool.and_eq_true] at hpred
  obtain ⟨hdot, hsome⟩ := hpred
  rw [take_one_drop cs i hilen] at hdot
  have hdot' : cs.getD i ' ' = '.' := by
    simpa using hdot
  have hnone : gzGreedyEnd cs i = none := by
    unfold gzGreedyEnd
    rw [List.find?_eq_none]
    intro j hj hpred2
    have hjlen : j < cs.length := List.mem_range.mp (List.mem_reverse.mp hj)
    rw [Bool.and_eq_true, Bool.and_eq_true] at hpred2
    obtain ⟨⟨hle, hdgz⟩, _⟩ := hpred2
    exact hgz i hilen j hjlen ⟨hdot', of_decide_eq_true hle, hdgz⟩
  rw [hnone] at hsome
  simp at hsome

theorem otherMatch_eq_none (cs : List Char)
    (hoth : ∀ i < (stripTrailingNl cs).length,
      ¬((stripTrailingNl cs).getD i ' ' = '.' ∧ i + 1 < (stripTrailingNl cs).length ∧
        ((stripTrailingNl cs).drop (i + 1)).all isWordChar = true)) :
    otherMatch cs = none := by
  unfold otherMatch
  rw [List.find?_eq_none]
  intro i hi hpred
  have hilen : i < (stripTrailingNl cs).length := List.mem_range.mp hi
  rw [Bool.and_eq_true, Bool.and_eq_true] at hpred
  obtain ⟨⟨hdot, hlt⟩, hall⟩ := hpred
  rw [take_one_drop (stripTrailingNl cs) i hilen] at hdot
  have hdot' : (stripTrailingNl cs).getD i ' ' = '.' := by
    simpa using hdot
  exact hoth i hilen ⟨hdot', of_decide_eq_true hlt, hall⟩

/-- C8: `_replace_extensions` maps `archive.tar.gz` to
`("archive", ".tar.gz")`, `data.gz` to `("data", ".gz")` and
`report.csv` to `("report", ".csv")`; and whenever none of its three
extension patterns applies — no position pair admits a `\..+\.gz`
match, the name does not end in `".gz"`, and no dot is followed
exclusively by one or more word characters up to the `$` anchor — it
returns `none`. -/
theorem claim_C8_replace_extensions :
    replace_extensions "archive.tar.gz" = some ("archive", ".tar.gz") ∧
    replace_extensions "data.gz" = some ("data", ".gz") ∧
    replace_extensions "report.csv" = some ("report", ".csv") ∧
    (∀ (s : String),
      (∀ i < s.toList.length, ∀ j < s.toList.length,
        ¬(s.toList.getD i ' ' = '.' ∧ i + 2 ≤ j ∧ dotGzAt s.toList j = true)) →
      ['.', 'g', 'z'].isSuffixOf s.toList = false →
      (∀ i < (stripTrailingNl s.toList).length,
        ¬((stripTrailingNl s.toList).getD i ' ' = '.' ∧
          i + 1 < (stripTrailingNl s.toList).length ∧
          ((stripTrailingNl s.toList).drop (i + 1)).all isWordChar = true)) →
      replace_extensions s = none) := by
  refine ⟨by decide, by decide, by decide, ?_⟩
  intro s hgz hsfx hoth
  by_cases hs : s = ""
  · rw [hs]; rfl
  · have hstart : gzMatchStartFrom s.toList 0 = none := gzMatchStartFrom_eq_none s.toList hgz
    have hfm : gzFirstMatchFrom s.toList 0 = none := by
      unfold gzFirstMatchFrom
      rw [hstart]
    have hms : gzMatches s.toList = [] := by
      simp only [gzMatches, gzMatchesFrom, hfm]
    unfold replace_extensions
    rw [if_neg hs]
    simp only [hms, hsfx, otherMatch_eq_none s.toList hoth, Bool.false_eq_true, if_false]

/-- Witness for the no-pattern case of C8 at the extensionless name `README`. -/
theorem claim_C8_replace_extensions_witness : replace_extensions "README" = none :=
  claim_C8_replace_extensions.2.2.2 "README" (by decide) (by decide) (by decide)

/-! ### C10: compound `.gz` suffixes swallow everything from the first dot -/

theorem getD_append_left (l1 l2 : List Char) (i : Nat) (h : i < l1.length) :
    (l1 ++ l2).getD i ' ' = l1.getD i ' ' := by
  simp [List.getD_eq_getElem?_getD, List.getElem?_append_left h]

theorem getD_append_len (l1 l2 : List Char) (i : Nat) :
    (l1 ++ l2).getD (l1.length + i) ' ' = l2.getD i ' ' := by
  simp [List.getD_eq_getElem?_getD, List.getElem?_append_right (Nat.le_add_right _ _),
    Nat.add_sub_cancel_left]

theorem map_getD_range' (l : List Char) :
    ∀ (n s : Nat), s + n ≤ l.length →
      (List.range' s n).map (fun k => l.getD k ' ') = (l.drop s).take n := by
  intro n
  induction n with
  | zero => intro s _; simp
  | succ n ih =>
    intro s h
    rw [List.range'_succ]
    simp only [List.map_cons]
    have hs : s < l.length := by omega
    rw [ih (s + 1) (by omega)]
    rw [List.drop_eq_getElem_cons hs, List.take_succ_cons]
    congr 1
    simp [List.getD_eq_getElem?_getD, List.getElem?_eq_getElem hs]

theorem filterMap_all_some (l : List Nat) (f : Nat → Option Char) (g : Nat → Char)
    (h : ∀ x ∈ l, f x = some (g x)) : l.filterMap f = l.map g := by
  induction l with
  | nil => rfl
  | cons a t ih =>
    simp only [List.filterMap_cons, h a (List.mem_cons_self a t), List.map_cons]
    rw [ih fun x hx => h x (List.mem_cons_of_mem a hx)]

/-- C10: for a file name with two or more dots before a trailing `.gz` —
rendered as `A ++ "." ++ M ++ ".gz"` with `A` dot-free and `M`
containing another dot (and newline-free, as any real file name is) —
`_replace_extensions` treats everything from the first dot as the
extension: the stem is the portion before the first dot and the
extension is the entire remaining multi-dot `.gz` suffix. -/
theorem claim_C10_first_dot_swallows (A M : List Char)
    (hAdot : ∀ c ∈ A, c ≠ '.') (hAnl : ∀ c ∈ A, c ≠ '\n')
    (hMdot : '.' ∈ M) (hMnl : ∀ c ∈ M, c ≠ '\n') :
    replace_extensions (String.mk (A ++ '.' :: (M ++ ['.', 'g', 'z'])))
      = some (String.mk A, String.mk ('.' :: (M ++ ['.', 'g', 'z']))) := by
  have hMne : M ≠ [] := List.ne_nil_of_mem hMdot
  have hMpos : 0 < M.length := List.length_pos.mpr hMne
  obtain ⟨cs, hcs⟩ : ∃ cs, cs = A ++ '.' :: (M ++ ['.', 'g', 'z']) := ⟨_, rfl⟩
  rw [← hcs]
  have hlen : cs.length = A.length + M.length + 4 := by
    rw [hcs]
    simp only [List.length_append, List.length_cons, List.length_nil]
    omega
  have hC : cs = (A ++ '.' :: M) ++ ['.', 'g', 'z'] := by rw [hcs]; simp
  have hC2 : cs = (A ++ ['.']) ++ (M ++ ['.', 'g', 'z']) := by rw [hcs]; simp
  have hdropK : cs.drop (A.length + M.length + 1) = ['.', 'g', 'z'] := by
    rw [hC, show A.length + M.length + 1 = (A ++ '.' :: M).length + 0 by
      simp only [List.length_append, List.length_cons]; omega, List.drop_append,
      List.drop_zero]
  have hdropK1 : cs.drop (A.length + M.length + 1 + 1) = ['g', 'z'] := by
    rw [hC, show A.length + M.length + 1 + 1 = (A ++ '.' :: M).length + 1 by
      simp only [List.length_append, List.length_cons]; omega, List.drop_append]
    decide
  have hdropK2 : cs.drop (A.length + M.length + 1 + 1 + 1) = ['z'] := by
    rw [hC, show A.length + M.length + 1 + 1 + 1 = (A ++ '.' :: M).length + 2 by
      simp only [List.length_append, List.length_cons]; omega, List.drop_append]
    decide
  have hdgzK : dotGzAt cs (A.length + M.length + 1) = true := by
    unfold dotGzAt; rw [hdropK]; rfl
  have hdgzK1 : dotGzAt cs (A.length + M.length + 1 + 1) = false := by
    unfold dotGzAt; rw [hdropK1]; rfl
  have hdgzK2 : dotGzAt cs (A.length + M.length + 1 + 1 + 1) = false := by
    unfold dotGzAt; rw [hdropK2]; rfl
  have hdropA1 : cs.drop (A.length + 1) = M ++ ['.', 'g', 'z'] := by
    rw [hC2, show A.length + 1 = (A ++ ['.']).length + 0 by
      simp only [List.length_append, List.length_cons, List.length_nil] <;> omega,
      List.drop_append]
    rfl
  have hmid : ((cs.drop (A.length + 1)).take (A.length + M.length + 1 - (A.length + 1))).all reDot
      = true := by
    rw [hdropA1, show A.length + M.length + 1 - (A.length + 1) = M.length by omega,
      List.take_left, List.all_eq_true]
    intro c hc
    simp [reDot, hMnl c hc]
  have hGE : gzGreedyEnd cs A.length = some (A.length + M.length + 1) := by
    unfold gzGreedyEnd
    rw [show cs.length = A.length + M.length + 1 + 1 + 1 + 1 by omega,
      range_reverse_succ, range_reverse_succ, range_reverse_succ,
      List.find?_cons_of_neg, List.find?_cons_of_neg, List.find?_cons_of_pos]
    · rw [Bool.and_eq_true, Bool.and_eq_true]
      refine ⟨⟨?_, hdgzK⟩, hmid⟩
      exact decide_eq_true (by omega)
    · intro hp
      rw [Bool.and_eq_true, Bool.and_eq_true] at hp
      obtain ⟨⟨_, hd⟩, _⟩ := hp
      rw [hdgzK1] at hd
      simp at hd
    · intro hp
      rw [Bool.and_eq_true, Bool.and_eq_true] at hp
      obtain ⟨⟨_, hd⟩, _⟩ := hp
      rw [hdgzK2] at hd
      simp at hd
  have hMS : gzMatchStartFrom cs 0 = some A.length := by
    unfold gzMatchStartFrom
    rw [List.drop_zero, List.range_eq_range',
      show cs.length = M.length + 4 + A.length by omega,
      ← List.range'_append_1 0 A.length (M.length + 4),
      show (0 : Nat) + A.length = A.length by omega,
      show M.length + 4 = (M.length + 3) + 1 by omega,
      List.range'_succ]
    apply find?_append_cons
    · intro y hy hpy
      have hy' : y < A.length := by
        have := List.mem_range'_1.mp hy
        omega
      rw [Bool.and_eq_true] at hpy
      obtain ⟨hdot, _⟩ := hpy
      rw [take_one_drop cs y (by omega)] at hdot
      have hdot' : cs.getD y ' ' = '.' := by simpa using hdot
      have hgd : cs.getD y ' ' = A.getD y ' ' := by
        rw [hcs]
        exact getD_append_left A ('.' :: (M ++ ['.', 'g', 'z'])) y hy'
      have hmem : A.getD y ' ' ∈ A := by
        have hge : A.getD y ' ' = A.get ⟨y, hy'⟩ := by
          simp [List.getD_eq_getElem?_getD, List.getElem?_eq_getElem hy', List.get_eq_getElem]
        rw [hge]
        exact List.get_mem A y hy'
      rw [hgd] at hdot'
      exact hAdot _ hmem hdot'
    · rw [Bool.and_eq_true]
      constructor
      · rw [take_one_drop cs A.length (by omega)]
        have hgd : cs.getD A.length ' ' = '.' := by
          rw [hcs]
          have h0 := getD_append_len A ('.' :: (M ++ ['.', 'g', 'z'])) 0
          simpa using h0
        rw [hgd]
        rfl
      · rw [hGE]
        rfl
  have hFM : gzFirstMatchFrom cs 0 = some (A.length, A.length + M.length + 1 + 3) := by
    simp only [gzFirstMatchFrom, hMS, hGE]
  have hrest : gzMatchesFrom cs cs.length (A.length + M.length + 1 + 3) = [] := by
    rw [show cs.length = (A.length + M.length + 3) + 1 by omega]
    have hstart : gzMatchStartFrom cs (A.length + M.length + 1 + 3) = none := by
      unfold gzMatchStartFrom
      rw [show A.length + M.length + 1 + 3 = (List.range cs.length).length by
        rw [List.length_range]; omega, List.drop_length]
      rfl
    have hnone : gzFirstMatchFrom cs (A.length + M.length + 1 + 3) = none := by
      unfold gzFirstMatchFrom
      rw [hstart]
    simp only [gzMatchesFrom, hnone]
  have hMatches : gzMatches cs = [(A.length, A.length + M.length + 1 + 3)] := by
    unfold gzMatches
    simp only [gzMatchesFrom, hFM, hrest]
  have hfs := filterMap_all_some (List.range' 0 A.length)
    (fun k => if ([(A.length, A.length + M.length + 1 + 3)].any
        fun r => decide (r.1 ≤ k) && decide (k < r.2)) = true then none
      else some (cs.getD k ' '))
    (fun k => cs.getD k ' ')
    (by
      intro k hk
      have hk' : k < A.length := by
        have := List.mem_range'_1.mp hk
        omega
      have hcond : ([(A.length, A.length + M.length + 1 + 3)].any
          fun r => decide (r.1 ≤ k) && decide (k < r.2)) = false := by
        simp only [List.any_cons, List.any_nil, Bool.or_false]
        rw [decide_eq_false (show ¬(A.length ≤ k) by omega)]
        rfl
      simp [hcond])
  have hRemove : removeRegions cs [(A.length, A.length + M.length + 1 + 3)] = A := by
    unfold removeRegions
    rw [List.range_eq_range',
      show cs.length = M.length + 4 + A.length by omega,
      ← List.range'_append_1 0 A.length (M.length + 4),
      show (0 : Nat) + A.length = A.length by omega,
      List.filterMap_append]
    have h2 : (List.range' A.length (M.length + 4)).filterMap
        (fun k => if ([(A.length, A.length + M.length + 1 + 3)].any
            fun r => decide (r.1 ≤ k) && decide (k < r.2)) = true then none
          else some (cs.getD k ' ')) = [] := by
      rw [List.filterMap_eq_nil_iff]
      intro k hk
      have hk' := List.mem_range'_1.mp hk
      have hcond : ([(A.length, A.length + M.length + 1 + 3)].any
          fun r => decide (r.1 ≤ k) && decide (k < r.2)) = true := by
        simp only [List.any_cons, List.any_nil, Bool.or_false]
        rw [decide_eq_true (show A.length ≤ k by omega),
          decide_eq_true (show k < A.length + M.length + 1 + 3 by omega)]
        rfl
      simp [hcond]
    rw [h2, List.append_nil, hfs, map_getD_range' cs A.length 0 (by omega),
      List.drop_zero, hcs]
    exact List.take_left A ('.' :: (M ++ ['.', 'g', 'z']))
  have hdropA : cs.drop A.length = '.' :: (M ++ ['.', 'g', 'z']) := by
    rw [hcs]
    have h0 : (A ++ '.' :: (M ++ ['.', 'g', 'z'])).drop (A.length + 0)
        = ('.' :: (M ++ ['.', 'g', 'z'])).drop 0 := List.drop_append 0
    simpa using h0
  have hExt : (cs.drop A.length).take (A.length + M.length + 1 + 3 - A.length)
      = '.' :: (M ++ ['.', 'g', 'z']) := by
    rw [hdropA, show A.length + M.length + 1 + 3 - A.length
        = ('.' :: (M ++ ['.', 'g', 'z'])).length by
      simp only [List.length_cons, List.length_append, List.length_nil]; omega,
      List.take_length]
  have hne2 : String.mk cs ≠ "" := by
    intro h
    have h2 : cs = [] := congrArg String.data h
    rw [hcs] at h2
    simp at h2
  have htl : (String.mk cs).toList = cs := rfl
  unfold replace_extensions
  rw [if_neg hne2, htl]
  simp only [hMatches]
  rw [hRemove, hExt]

/-- Witness for C10 at `a.b.tar.gz` (stem `a`, extension `.b.tar.gz`). -/
theorem claim_C10_first_dot_swallows_witness :
    replace_extensions "a.b.tar.gz" = some ("a", ".b.tar.gz") :=
  (claim_C10_first_dot_swallows ['a'] ['b', '.', 't', 'a', 'r']
    (by decide) (by decide) (by decide) (by decide)).trans (by decide)

end FileWatcher

